import Mathlib

/-!
Verification of the Chisquared and Erlang wrapper distributions of a
probability library. The two wrappers (src/distribution/chisquared.rs,
src/distribution/erlang.rs) store one Gamma instance by value and forward
every capability call to it. The Gamma engine itself is outside the visible
slice, so its constructor and its capability formulas are modelled from the
specification; the wrapper code is translated directly.

Numeric convention: all arithmetic appearing in the visible wrapper code is
exact in IEEE double precision on the quantities involved (division and
multiplication by two, casts of small integers, the rational median formula),
so machine doubles are embedded as rationals. The transcendental
capabilities of the modelled Gamma engine (entropy, skewness, density, CDF)
take values in the reals. A dedicated small float type covers the two claims
that are about genuine IEEE special values (NaN and infinity).
-/

set_option maxHeartbeats 1000000

/-- Modelled from the spec: the Gamma distribution parameter pair, shape k
and scale theta. The Gamma engine is not part of the visible source slice;
the spec describes it as an immutable value object storing the two
parameters unchanged. -/
structure Gamma where
  k : ℚ
  theta : ℚ
deriving DecidableEq, Repr

/-- Modelled from the spec: Gamma construction fails (rejects construction)
unless k > 0 and theta > 0; on success it stores the parameters unchanged. -/
def Gamma.new (k theta : ℚ) : Option Gamma :=
  if 0 < k ∧ 0 < theta then some ⟨k, theta⟩ else none

/-- Modelled from the spec: mean = k * theta. -/
def Gamma.mean (g : Gamma) : ℚ := g.k * g.theta

/-- Modelled from the spec: variance = k * theta ^ 2. -/
def Gamma.variance (g : Gamma) : ℚ := g.k * g.theta ^ 2

/-- Modelled from the spec: skewness = 2 / sqrt k. -/
noncomputable def Gamma.skewness (g : Gamma) : ℝ := 2 / Real.sqrt (g.k : ℝ)

/-- Modelled from the spec: kurtosis = 3 + 6 / k. -/
def Gamma.kurtosis (g : Gamma) : ℚ := 3 + 6 / g.k

/-- Modelled from the spec: a single mode at (k - 1) * theta when k is at
least one, and an empty mode list when k < 1. -/
def Gamma.modes (g : Gamma) : List ℚ :=
  if 1 ≤ g.k then [(g.k - 1) * g.theta] else []

/-- The digamma function, the derivative of the logarithm of the Gamma
function, used by the entropy formula of the spec. -/
noncomputable def digamma (x : ℝ) : ℝ :=
  deriv (fun t => Real.log (Real.Gamma t)) x

/-- Modelled from the spec: entropy = k + ln theta + ln Gamma k
plus (1 - k) * digamma k. -/
noncomputable def Gamma.entropy (g : Gamma) : ℝ :=
  (g.k : ℝ) + Real.log (g.theta : ℝ) + Real.log (Real.Gamma (g.k : ℝ))
    + (1 - (g.k : ℝ)) * digamma (g.k : ℝ)

/-- Modelled from the spec: the gamma probability density
f x = x ^ (k - 1) * exp (-x / theta) / (Gamma k * theta ^ k) for x > 0,
and 0 otherwise. -/
noncomputable def Gamma.density (g : Gamma) (x : ℝ) : ℝ :=
  if 0 < x then
    x ^ ((g.k : ℝ) - 1) * Real.exp (-x / (g.theta : ℝ))
      / (Real.Gamma (g.k : ℝ) * (g.theta : ℝ) ^ (g.k : ℝ))
  else 0

/-- The lower incomplete gamma function, the CDF kernel named by the spec. -/
noncomputable def lowerIncGamma (a x : ℝ) : ℝ :=
  ∫ t in (0 : ℝ)..x, t ^ (a - 1) * Real.exp (-t)

/-- Modelled from the spec: the CDF is the regularized lower incomplete
gamma function P k (x / theta) for x > 0, and 0 otherwise. -/
noncomputable def Gamma.distribution (g : Gamma) (x : ℝ) : ℝ :=
  if 0 < x then lowerIncGamma (g.k : ℝ) (x / (g.theta : ℝ)) / Real.Gamma (g.k : ℝ)
  else 0

/-- A chisquared distribution: stores one Gamma instance by value
(field gamma of the source struct). -/
structure Chisquared where
  gamma : Gamma
deriving DecidableEq, Repr

/-- Chisquared construction: requires k > 0, then stores
Gamma new (k as f64 / 2) 2. The stored pair goes through the Gamma
constructor, which can itself reject. -/
def Chisquared.new (k : ℕ) : Option Chisquared :=
  if 0 < k then (Gamma.new ((k : ℚ) / 2) 2).map Chisquared.mk else none

/-- The k accessor of the source: (self.gamma.k() as u64) * 2. The cast of
a double to u64 truncates toward zero, embedded as the natural floor. -/
def Chisquared.k (c : Chisquared) : ℕ := Nat.floor c.gamma.k * 2

/-- Chisquared density: delegates to the owned Gamma. -/
noncomputable def Chisquared.density (c : Chisquared) (x : ℝ) : ℝ :=
  c.gamma.density x

/-- Chisquared CDF: delegates to the owned Gamma. -/
noncomputable def Chisquared.distribution (c : Chisquared) (x : ℝ) : ℝ :=
  c.gamma.distribution x

/-- Chisquared entropy: delegates to the owned Gamma. -/
noncomputable def Chisquared.entropy (c : Chisquared) : ℝ := c.gamma.entropy

/-- Chisquared kurtosis: delegates to the owned Gamma. -/
def Chisquared.kurtosis (c : Chisquared) : ℚ := c.gamma.kurtosis

/-- Chisquared mean: delegates to the owned Gamma. -/
def Chisquared.mean (c : Chisquared) : ℚ := c.gamma.mean

/-- Chisquared median, the one capability that does not delegate:
(self.k() as f64) * (1.0 - 2.0 / (9.0 * (self.k() as f64))) ^ 3. -/
def Chisquared.median (c : Chisquared) : ℚ :=
  (c.k : ℚ) * (1 - 2 / (9 * (c.k : ℚ))) ^ 3

/-- Chisquared modes: delegates to the owned Gamma. -/
def Chisquared.modes (c : Chisquared) : List ℚ := c.gamma.modes

/-- Chisquared sampling: the source line is self.gamma.sample(source).
The Gamma sampler is outside the visible slice and is a rejection loop, so
it is abstracted as an arbitrary function from a Gamma value and a source
state to a drawn value and the advanced source state; the wrapper forwards
the owned Gamma and the source to it unchanged. -/
def Chisquared.sample {σ : Type} (gsample : Gamma → σ → ℝ × σ)
    (c : Chisquared) (s : σ) : ℝ × σ :=
  gsample c.gamma s

/-- Chisquared skewness: delegates to the owned Gamma. -/
noncomputable def Chisquared.skewness (c : Chisquared) : ℝ := c.gamma.skewness

/-- Chisquared variance: delegates to the owned Gamma. -/
def Chisquared.variance (c : Chisquared) : ℚ := c.gamma.variance

/-- An erlang distribution: a tuple struct owning one Gamma instance. -/
structure Erlang where
  gamma : Gamma
deriving DecidableEq, Repr

/-- Erlang construction: requires k > 0 and l > 0, then stores
Gamma new (k as f64) (1 / l). The stored pair goes through the Gamma
constructor, which can itself reject. This exact-arithmetic idealization
drops the IEEE roundings of the cast k as f64 and of the division 1.0 / l;
the rounding-aware variant below, newF64, models them, and is the one used
for the accessor round-trip question, where the roundings matter. -/
def Erlang.new (k : ℕ) (l : ℚ) : Option Erlang :=
  if 0 < k ∧ 0 < l then (Gamma.new (k : ℚ) (1 / l)).map Erlang.mk else none

/-- The k accessor of the source: self.0.k() as u64, a truncating cast. -/
def Erlang.k (e : Erlang) : ℕ := Nat.floor e.gamma.k

/-- The l accessor of the source: 1.0 / self.0.theta(), in exact
arithmetic; the rounding-aware variant below, lF64, models the IEEE
rounding of the division and is the one used for the round-trip question. -/
def Erlang.l (e : Erlang) : ℚ := 1 / e.gamma.theta

/-- Erlang density: delegates to the owned Gamma. -/
noncomputable def Erlang.density (e : Erlang) (x : ℝ) : ℝ := e.gamma.density x

/-- Erlang CDF: delegates to the owned Gamma. -/
noncomputable def Erlang.distribution (e : Erlang) (x : ℝ) : ℝ :=
  e.gamma.distribution x

/-- Erlang entropy: delegates to the owned Gamma. -/
noncomputable def Erlang.entropy (e : Erlang) : ℝ := e.gamma.entropy

/-- Erlang kurtosis: delegates to the owned Gamma. -/
def Erlang.kurtosis (e : Erlang) : ℚ := e.gamma.kurtosis

/-- Erlang mean: delegates to the owned Gamma. -/
def Erlang.mean (e : Erlang) : ℚ := e.gamma.mean

/-- Erlang modes: delegates to the owned Gamma. -/
def Erlang.modes (e : Erlang) : List ℚ := e.gamma.modes

/-- Erlang sampling: the source line is self.0.sample(source); the Gamma
sampler is abstracted exactly as for Chisquared. -/
def Erlang.sample {σ : Type} (gsample : Gamma → σ → ℝ × σ)
    (e : Erlang) (s : σ) : ℝ × σ :=
  gsample e.gamma s

/-- Erlang skewness: delegates to the owned Gamma. -/
noncomputable def Erlang.skewness (e : Erlang) : ℝ := e.gamma.skewness

/-- Erlang variance: delegates to the owned Gamma. -/
def Erlang.variance (e : Erlang) : ℚ := e.gamma.variance

/-- A minimal model of IEEE double values for the claims about special
values: not-a-number, the two infinities, and finite values (embedded as
rationals, signed zero not distinguished). -/
inductive Fl where
  | nan : Fl
  | inf : Fl
  | neginf : Fl
  | fin : ℚ → Fl
deriving DecidableEq, Repr

/-- IEEE comparison v > 0.0: false for NaN, true for positive infinity. -/
def Fl.gtZero : Fl → Bool
  | Fl.nan => false
  | Fl.inf => true
  | Fl.neginf => false
  | Fl.fin q => decide (0 < q)

/-- IEEE division 1.0 / v: 1 / NaN is NaN, 1 / infinity is zero,
1 / 0.0 is infinity, otherwise the exact reciprocal (all reciprocals
arising in the claims are exactly representable). -/
def Fl.oneDiv : Fl → Fl
  | Fl.nan => Fl.nan
  | Fl.inf => Fl.fin 0
  | Fl.neginf => Fl.fin 0
  | Fl.fin q => if q = 0 then Fl.inf else Fl.fin (1 / q)

/-- The precondition check of Erlang construction in float semantics:
k > 0 and l > 0.0 with IEEE comparison. -/
def Erlang.checkF (k : ℕ) (l : Fl) : Bool :=
  decide (0 < k) && l.gtZero

/-- Erlang construction in float semantics, up to the hand-off to the Gamma
constructor: when the local check passes it returns the pair of arguments
(k as f64, 1.0 / l) that the source passes on to Gamma new. -/
def Erlang.newF (k : ℕ) (l : Fl) : Option (ℚ × Fl) :=
  if Erlang.checkF k l then some ((k : ℚ), Fl.oneDiv l) else none

/-- Round half to even: the integer nearest to x, with ties resolved to
the even integer, as IEEE round-to-nearest does on the scaled mantissa. -/
def rne (x : ℚ) : ℤ :=
  if x - ⌊x⌋ < 1 / 2 then ⌊x⌋
  else if 1 / 2 < x - ⌊x⌋ then ⌊x⌋ + 1
  else if Even ⌊x⌋ then ⌊x⌋ else ⌊x⌋ + 1

/-- The exponent of the unit in the last place of a double with the
magnitude of q: the binary exponent of q minus the 52 fraction bits. -/
def ulpExp (q : ℚ) : ℤ := Int.log 2 |q| - 52

/-- Rounding of an exact rational value to the nearest IEEE double
(round to nearest, ties to even): scale q by its unit in the last place,
round half to even, and scale back. Valid throughout the normal range of
doubles; overflow and subnormals are not modelled (every value appearing
in the developments below is a normal double). -/
def f64round (q : ℚ) : ℚ :=
  if q = 0 then 0 else (rne (q / 2 ^ ulpExp q) : ℚ) * 2 ^ ulpExp q

/-- Erlang construction with the IEEE roundings made explicit: the source
stores Gamma new (k as f64) (1.0 / l), and both the cast of k to a double
and the division round their exact value to the nearest double. -/
def Erlang.newF64 (k : ℕ) (l : ℚ) : Option Erlang :=
  if 0 < k ∧ 0 < l then
    (Gamma.new (f64round (k : ℚ)) (f64round (1 / l))).map Erlang.mk
  else none

/-- The l accessor with the IEEE rounding made explicit: the source
computes 1.0 / self.0.theta(), a division that rounds its exact value to
the nearest double. -/
def Erlang.lF64 (e : Erlang) : ℚ := f64round (1 / e.gamma.theta)

/-- Successful Chisquared construction stores Gamma with shape k / 2 and
scale 2. -/
theorem chisquared_new_unfold (k : ℕ) (hk : 0 < k) :
    Chisquared.new k = some ⟨⟨(k : ℚ) / 2, 2⟩⟩ := by
  have h1 : (0 : ℚ) < (k : ℚ) / 2 := by positivity
  simp [Chisquared.new, Gamma.new, hk, h1]

/-- Successful Erlang construction stores Gamma with shape k and
scale 1 / l. -/
theorem erlang_new_unfold (k : ℕ) (l : ℚ) (hk : 0 < k) (hl : 0 < l) :
    Erlang.new k l = some ⟨⟨(k : ℚ), 1 / l⟩⟩ := by
  have h1 : (0 : ℚ) < (k : ℚ) := by exact_mod_cast hk
  have h2 : (0 : ℚ) < 1 / l := by positivity
  simp [Erlang.new, Gamma.new, hk, hl, h1, h2]

/-- The floor of five halves, needed for the k accessor at the failing
input. -/
theorem floor_five_halves : Nat.floor ((5 : ℚ) / 2) = 2 := by
  rw [Nat.floor_eq_iff (by norm_num)]
  norm_num

/-- C1: for every positive integer k, every capability of Chisquared
constructed with 2 * k degrees of freedom — density, distribution, entropy,
kurtosis, mean, modes, sample on the same source state, skewness, variance —
returns exactly the value of the same capability of Gamma constructed with
shape k and scale 2: the wrapper forwards each call verbatim to its owned
Gamma with no translation. -/
theorem chisquared_delegates_to_gamma (k : ℕ) (hk : 0 < k) :
    ∃ c g, Chisquared.new (2 * k) = some c ∧ Gamma.new (k : ℚ) 2 = some g ∧
      (∀ x : ℝ, c.density x = g.density x) ∧
      (∀ x : ℝ, c.distribution x = g.distribution x) ∧
      c.entropy = g.entropy ∧
      c.kurtosis = g.kurtosis ∧
      c.mean = g.mean ∧
      c.modes = g.modes ∧
      (∀ (σ : Type) (gsample : Gamma → σ → ℝ × σ) (s : σ),
        c.sample gsample s = gsample g s) ∧
      c.skewness = g.skewness ∧
      c.variance = g.variance := by
  have hcast : ((2 * k : ℕ) : ℚ) / 2 = (k : ℚ) := by push_cast; ring
  have h2k : 0 < 2 * k := by omega
  have hkq : (0 : ℚ) < (k : ℚ) := by exact_mod_cast hk
  refine ⟨⟨⟨(k : ℚ), 2⟩⟩, ⟨(k : ℚ), 2⟩, ?_, ?_, ?_, ?_, ?_, ?_, ?_, ?_, ?_,
    ?_, ?_⟩
  · rw [chisquared_new_unfold _ h2k, hcast]
  · simp [Gamma.new, hkq]
  all_goals intros; rfl

/-- C1 witness at k = 1. -/
theorem chisquared_delegates_to_gamma_witness :
    0 < 1 ∧
    ∃ c g, Chisquared.new (2 * 1) = some c ∧ Gamma.new ((1 : ℕ) : ℚ) 2 = some g ∧
      (∀ x : ℝ, c.density x = g.density x) ∧
      (∀ x : ℝ, c.distribution x = g.distribution x) ∧
      c.entropy = g.entropy ∧
      c.kurtosis = g.kurtosis ∧
      c.mean = g.mean ∧
      c.modes = g.modes ∧
      (∀ (σ : Type) (gsample : Gamma → σ → ℝ × σ) (s : σ),
        c.sample gsample s = gsample g s) ∧
      c.skewness = g.skewness ∧
      c.variance = g.variance :=
  ⟨by decide, chisquared_delegates_to_gamma 1 (by decide)⟩

/-- C4: for every positive integer k and positive rational rate l, every
capability of Erlang constructed with shape k and rate l — density,
distribution, entropy, kurtosis, mean, modes, sample on the same source
state, skewness, variance — returns exactly the value of the same capability
of Gamma constructed with shape k and scale 1 / l; there is no
Erlang-specific override of any capability. -/
theorem erlang_delegates_to_gamma (k : ℕ) (l : ℚ) (hk : 0 < k) (hl : 0 < l) :
    ∃ e g, Erlang.new k l = some e ∧ Gamma.new (k : ℚ) (1 / l) = some g ∧
      (∀ x : ℝ, e.density x = g.density x) ∧
      (∀ x : ℝ, e.distribution x = g.distribution x) ∧
      e.entropy = g.entropy ∧
      e.kurtosis = g.kurtosis ∧
      e.mean = g.mean ∧
      e.modes = g.modes ∧
      (∀ (σ : Type) (gsample : Gamma → σ → ℝ × σ) (s : σ),
        e.sample gsample s = gsample g s) ∧
      e.skewness = g.skewness ∧
      e.variance = g.variance := by
  have hkq : (0 : ℚ) < (k : ℚ) := by exact_mod_cast hk
  have hlq : (0 : ℚ) < 1 / l := by positivity
  refine ⟨⟨⟨(k : ℚ), 1 / l⟩⟩, ⟨(k : ℚ), 1 / l⟩, ?_, ?_, ?_, ?_, ?_, ?_, ?_,
    ?_, ?_, ?_, ?_⟩
  · exact erlang_new_unfold k l hk hl
  · simp [Gamma.new, hkq, hlq, hl]
  all_goals intros; rfl

/-- C4 witness at k = 2, l = 1 / 2. -/
theorem erlang_delegates_to_gamma_witness :
    0 < 2 ∧ (0 : ℚ) < 1 / 2 ∧
    ∃ e g, Erlang.new 2 (1 / 2) = some e ∧
      Gamma.new ((2 : ℕ) : ℚ) (1 / (1 / 2)) = some g ∧
      (∀ x : ℝ, e.density x = g.density x) ∧
      (∀ x : ℝ, e.distribution x = g.distribution x) ∧
      e.entropy = g.entropy ∧
      e.kurtosis = g.kurtosis ∧
      e.mean = g.mean ∧
      e.modes = g.modes ∧
      (∀ (σ : Type) (gsample : Gamma → σ → ℝ × σ) (s : σ),
        e.sample gsample s = gsample g s) ∧
      e.skewness = g.skewness ∧
      e.variance = g.variance :=
  ⟨by decide, by norm_num, erlang_delegates_to_gamma 2 (1 / 2) (by decide)
    (by norm_num)⟩

/-- C2: evaluation of the k accessor at the failing input. The source
truncates the stored gamma shape to an integer before doubling, so for the
odd input 5 the stored shape 5 / 2 truncates to 2 and the accessor returns
4, not the constructed degrees of freedom 5. -/
theorem chisquared_k_accessor_truncates :
    (Chisquared.new 5).map Chisquared.k = some 4 ∧
    (Chisquared.new 5).map Chisquared.k ≠ some 5 := by
  rw [chisquared_new_unfold 5 (by decide)]
  constructor <;> simp [Chisquared.k] <;> norm_num [floor_five_halves]

/-- C3: evaluation of the median at the failing input. The median formula
is applied to the value of the k accessor, which is 4 for the constructed
degrees of freedom 5, so the result is 4 * (1 - 2 / 36) ^ 3 = 4913 / 1458
rather than the Wilson-Hilferty value 5 * (1 - 2 / 45) ^ 3 computed from
the constructed degrees of freedom. -/
theorem chisquared_median_uses_truncated_k :
    (Chisquared.new 5).map Chisquared.median = some (4913 / 1458) ∧
    (4913 / 1458 : ℚ) ≠ (5 : ℚ) * (1 - 2 / (9 * 5)) ^ 3 := by
  constructor
  · rw [chisquared_new_unfold 5 (by decide)]
    norm_num [Chisquared.median, Chisquared.k, floor_five_halves]
  · norm_num

/-- C5: construction with a non-positive parameter fails and produces no
instance: Chisquared construction returns none exactly when k = 0, and
Erlang construction returns none exactly when k = 0 or the rate is at most
zero (finite rates; the not-a-number rate is treated separately). -/
theorem construction_rejects_nonpositive :
    (∀ k : ℕ, Chisquared.new k = none ↔ k = 0) ∧
    (∀ (k : ℕ) (l : ℚ), Erlang.new k l = none ↔ k = 0 ∨ l ≤ 0) := by
  constructor
  · intro k
    rcases Nat.eq_zero_or_pos k with h | h
    · subst h; simp [Chisquared.new]
    · rw [chisquared_new_unfold k h]
      simp
      omega
  · intro k l
    rcases Nat.eq_zero_or_pos k with h | h
    · subst h; simp [Erlang.new]
    · rcases le_or_lt l 0 with h2 | h2
      · have : ¬(0 < k ∧ 0 < l) := by
          intro hc
          exact absurd hc.2 (not_lt.mpr h2)
        simp [Erlang.new, this]
        exact Or.inr h2
      · rw [erlang_new_unfold k l h h2]
        simp
        constructor
        · omega
        · exact h2

/-- C5 witness: a rejected Chisquared construction at k = 0 and a rejected
Erlang construction at rate -1. -/
theorem construction_rejects_nonpositive_witness :
    Chisquared.new 0 = none ∧ Erlang.new 3 (-1) = none :=
  ⟨(construction_rejects_nonpositive.1 0).mpr rfl,
   (construction_rejects_nonpositive.2 3 (-1)).mpr (Or.inr (by norm_num))⟩

/-- The binary exponent of a positive rational is pinned by bracketing
powers of two. -/
theorem int_log2_eq (r : ℚ) (e : ℤ) (hr : 0 < r) (h1 : (2 : ℚ) ^ e ≤ r)
    (h2 : r < (2 : ℚ) ^ (e + 1)) : Int.log 2 r = e := by
  have hb : 1 < (2 : ℕ) := by norm_num
  have hc : ((2 : ℕ) : ℚ) = (2 : ℚ) := by norm_num
  have ha : e ≤ Int.log 2 r := by
    rw [← Int.zpow_le_iff_le_log hb hr, hc]
    exact h1
  have hbnd : Int.log 2 r < e + 1 := by
    rw [← Int.lt_zpow_iff_log_lt hb hr, hc]
    exact h2
  omega

/-- Round half to even, below the midpoint: round down. -/
theorem rne_eval_lt (x : ℚ) (n : ℤ) (hfl : ⌊x⌋ = n) (h : x - n < 1 / 2) :
    rne x = n := by
  rw [rne, hfl, if_pos h]

/-- Round half to even, above the midpoint: round up. -/
theorem rne_eval_gt (x : ℚ) (n : ℤ) (hfl : ⌊x⌋ = n) (h : 1 / 2 < x - n) :
    rne x = n + 1 := by
  rw [rne, hfl, if_neg (by linarith), if_pos h]

/-- Round half to even, at the midpoint with an even floor: round down. -/
theorem rne_eval_tie_even (x : ℚ) (n : ℤ) (hfl : ⌊x⌋ = n)
    (h : x - n = 1 / 2) (he : Even n) : rne x = n := by
  rw [rne, hfl, if_neg (by linarith), if_neg (by linarith), if_pos he]

/-- Evaluation scheme for f64round from a pinned exponent and a pinned
rounded mantissa. -/
theorem f64round_eval (q : ℚ) (e n : ℤ) (hq : q ≠ 0)
    (hlog : Int.log 2 |q| = e) (hrne : rne (q / 2 ^ (e - 52)) = n) :
    f64round q = (n : ℚ) * 2 ^ (e - 52) := by
  rw [f64round, if_neg hq, ulpExp, hlog, hrne]

/-- One is an exact double. -/
theorem f64round_one : f64round 1 = 1 := by
  rw [f64round_eval 1 0 (2 ^ 52) (by norm_num)
    (by rw [abs_one]; exact Int.log_one_right 2)
    (rne_eval_lt _ _ (by rw [Int.floor_eq_iff]; push_cast; norm_num)
      (by push_cast; norm_num))]
  push_cast
  norm_num

/-- Two is an exact double. -/
theorem f64round_two : f64round 2 = 2 := by
  rw [f64round_eval 2 1 (2 ^ 52) (by norm_num)
    (by rw [show |(2 : ℚ)| = 2 by norm_num]
        exact int_log2_eq 2 1 (by norm_num) (by norm_num) (by norm_num))
    (rne_eval_lt _ _ (by rw [Int.floor_eq_iff]; push_cast; norm_num)
      (by push_cast; norm_num))]
  push_cast
  norm_num

/-- One half is an exact double. -/
theorem f64round_half : f64round (1 / 2) = 1 / 2 := by
  rw [f64round_eval (1 / 2) (-1) (2 ^ 52) (by norm_num)
    (by rw [show |(1 / 2 : ℚ)| = 1 / 2 by norm_num]
        exact int_log2_eq (1 / 2) (-1) (by norm_num) (by norm_num)
          (by norm_num))
    (rne_eval_lt _ _ (by rw [Int.floor_eq_iff]; push_cast; norm_num)
      (by push_cast; norm_num))]
  push_cast
  norm_num

/-- The exact quotient 1 / (1 - 2 to the -53) lies just above the midpoint
between 1 and the next double, so IEEE division rounds it up to
1 + 2 to the -52. -/
theorem f64round_up :
    f64round (2 ^ 53 / (2 ^ 53 - 1)) = (2 ^ 52 + 1) / 2 ^ 52 := by
  rw [f64round_eval (2 ^ 53 / (2 ^ 53 - 1)) 0 (2 ^ 52 + 1) (by norm_num)
    (by rw [show |(2 ^ 53 / (2 ^ 53 - 1) : ℚ)| = 2 ^ 53 / (2 ^ 53 - 1) from
          abs_of_pos (by norm_num)]
        exact int_log2_eq _ 0 (by norm_num) (by norm_num) (by norm_num))
    (rne_eval_gt _ (2 ^ 52)
      (by rw [Int.floor_eq_iff]; push_cast; norm_num)
      (by push_cast; norm_num))]
  push_cast
  norm_num

/-- The exact quotient 1 / (1 + 2 to the -52) lies just above the double
1 - 2 to the -52, well below the midpoint to the next double, so IEEE
division rounds it down to 1 - 2 to the -52. -/
theorem f64round_down :
    f64round (2 ^ 52 / (2 ^ 52 + 1)) = 1 - 1 / 2 ^ 52 := by
  rw [f64round_eval (2 ^ 52 / (2 ^ 52 + 1)) (-1) (2 ^ 53 - 2) (by norm_num)
    (by rw [show |(2 ^ 52 / (2 ^ 52 + 1) : ℚ)| = 2 ^ 52 / (2 ^ 52 + 1) from
          abs_of_pos (by norm_num)]
        exact int_log2_eq _ (-1) (by norm_num) (by norm_num) (by norm_num))
    (rne_eval_lt _ _ (by rw [Int.floor_eq_iff]; push_cast; norm_num)
      (by push_cast; norm_num))]
  push_cast
  norm_num

/-- The integer 2 to the 53 plus 1 is exactly midway between the two
neighbouring doubles, and ties-to-even rounds it to 2 to the 53. -/
theorem f64round_tie : f64round (2 ^ 53 + 1) = 2 ^ 53 := by
  rw [f64round_eval (2 ^ 53 + 1) 53 (2 ^ 52) (by norm_num)
    (by rw [show |(2 ^ 53 + 1 : ℚ)| = 2 ^ 53 + 1 from abs_of_pos
          (by norm_num)]
        exact int_log2_eq _ 53 (by norm_num) (by norm_num) (by norm_num))
    (rne_eval_tie_even _ (2 ^ 52)
      (by rw [Int.floor_eq_iff]; push_cast; norm_num)
      (by push_cast; norm_num) ⟨2 ^ 51, by norm_num⟩)]
  push_cast
  norm_num

/-- The floor of the rational 2 to the 53 as a natural number. -/
theorem floor_two_pow_53 : Nat.floor ((2 ^ 53 : ℚ)) = 2 ^ 53 := by
  rw [show (2 ^ 53 : ℚ) = ((2 ^ 53 : ℕ) : ℚ) by push_cast; norm_num]
  exact Nat.floor_natCast _

/-- C6 counterexample: under IEEE double rounding the accessor round-trip
fails at concrete inputs. At rate l = 1 - 2 to the -53 (a representable
double), the stored scale 1.0 / l rounds up to 1 + 2 to the -52, and the l
accessor then returns 1 - 2 to the -52, not l. At shape k = 2 to the 53
plus 1, the cast k as f64 rounds to 2 to the 53 (ties to even), and the k
accessor returns 2 to the 53, not k. -/
theorem erlang_accessor_roundtrip_cex :
    Erlang.newF64 1 (1 - 1 / 2 ^ 53)
      = some ⟨⟨1, (2 ^ 52 + 1) / 2 ^ 52⟩⟩ ∧
    Erlang.lF64 ⟨⟨1, (2 ^ 52 + 1) / 2 ^ 52⟩⟩ = 1 - 1 / 2 ^ 52 ∧
    (1 - 1 / 2 ^ 52 : ℚ) ≠ 1 - 1 / 2 ^ 53 ∧
    Erlang.newF64 (2 ^ 53 + 1) 1 = some ⟨⟨2 ^ 53, 1⟩⟩ ∧
    Erlang.k ⟨⟨2 ^ 53, 1⟩⟩ = 2 ^ 53 ∧
    (2 ^ 53 : ℕ) ≠ 2 ^ 53 + 1 := by
  have e1 : (1 : ℚ) / (1 - 1 / 2 ^ 53) = 2 ^ 53 / (2 ^ 53 - 1) := by
    norm_num
  have e2 : (1 : ℚ) / ((2 ^ 52 + 1) / 2 ^ 52) = 2 ^ 52 / (2 ^ 52 + 1) := by
    norm_num
  have e3 : ((2 ^ 53 + 1 : ℕ) : ℚ) = 2 ^ 53 + 1 := by push_cast; norm_num
  refine ⟨?_, ?_, by norm_num, ?_, ?_, by norm_num⟩
  · rw [Erlang.newF64,
      if_pos ⟨Nat.one_pos, show (0 : ℚ) < 1 - 1 / 2 ^ 53 by norm_num⟩,
      Nat.cast_one, f64round_one, e1, f64round_up]
    rw [show Gamma.new 1 ((2 ^ 52 + 1) / 2 ^ 52)
        = some ⟨1, (2 ^ 52 + 1) / 2 ^ 52⟩ by
      simp [Gamma.new]
      norm_num]
    rfl
  · rw [Erlang.lF64]
    rw [show (⟨⟨1, (2 ^ 52 + 1) / 2 ^ 52⟩⟩ : Erlang).gamma.theta
        = (2 ^ 52 + 1) / 2 ^ 52 from rfl, e2, f64round_down]
  · rw [Erlang.newF64,
      if_pos ⟨by positivity, show (0 : ℚ) < 1 by norm_num⟩, e3,
      f64round_tie, show (1 : ℚ) / 1 = 1 by norm_num, f64round_one]
    rw [show Gamma.new (2 ^ 53) 1 = some ⟨2 ^ 53, 1⟩ by
      simp [Gamma.new]]
    rfl
  · rw [Erlang.k]
    exact floor_two_pow_53

/-- C6 (amended): the Erlang accessors round-trip the construction
parameters whenever the constructions two conversions to double are exact
and the rate itself is a representable double: for every positive integer
k and positive rate l such that k as f64 equals k, l is a double, and
1.0 / l is exact, the constructed instance reports shape k and rate l,
the rate being recovered as the reciprocal of the stored Gamma scale
1 / l. Without these exactness conditions the round-trip fails, as the
counterexample shows. -/
theorem erlang_accessors_roundtrip_amended (k : ℕ) (l : ℚ) (hk : 0 < k)
    (hl : 0 < l) (hkr : f64round (k : ℚ) = (k : ℚ)) (hlr : f64round l = l)
    (hinv : f64round (1 / l) = 1 / l) :
    ∃ e, Erlang.newF64 k l = some e ∧ e.k = k ∧ Erlang.lF64 e = l := by
  have hkq : (0 : ℚ) < (k : ℚ) := by exact_mod_cast hk
  have hinvpos : (0 : ℚ) < 1 / l := by positivity
  refine ⟨⟨⟨(k : ℚ), 1 / l⟩⟩, ?_, ?_, ?_⟩
  · rw [Erlang.newF64, if_pos ⟨hk, hl⟩, hkr, hinv]
    rw [show Gamma.new (k : ℚ) (1 / l) = some ⟨(k : ℚ), 1 / l⟩ by
      simp [Gamma.new, hkq, hinvpos, hl]]
    rfl
  · simp [Erlang.k]
  · rw [Erlang.lF64]
    rw [show (⟨⟨(k : ℚ), 1 / l⟩⟩ : Erlang).gamma.theta = 1 / l from rfl,
      one_div_one_div, hlr]

/-- C6 amended witness at k = 2, l = 1 / 2: both conversions are exact. -/
theorem erlang_accessors_roundtrip_amended_witness :
    0 < 2 ∧ (0 : ℚ) < 1 / 2 ∧ f64round ((2 : ℕ) : ℚ) = ((2 : ℕ) : ℚ) ∧
    f64round (1 / 2) = 1 / 2 ∧ f64round (1 / (1 / 2)) = 1 / (1 / 2) ∧
    ∃ e, Erlang.newF64 2 (1 / 2) = some e ∧ e.k = 2 ∧
      Erlang.lF64 e = 1 / 2 :=
  ⟨by decide, by norm_num, by push_cast; exact f64round_two, f64round_half,
   by rw [show (1 : ℚ) / (1 / 2) = 2 by norm_num]; exact f64round_two,
   erlang_accessors_roundtrip_amended 2 (1 / 2) (by decide) (by norm_num)
     (by push_cast; exact f64round_two) f64round_half
     (by rw [show (1 : ℚ) / (1 / 2) = 2 by norm_num]; exact f64round_two)⟩

/-- C7: the concrete moment scenarios: Chisquared with 5 degrees of freedom
has mean 5, variance 10 and single mode 3; Erlang with shape 5 and rate 1/2
has mean 10, variance 20 and single mode 8. -/
theorem concrete_moment_scenarios :
    (Chisquared.new 5).map Chisquared.mean = some 5 ∧
    (Chisquared.new 5).map Chisquared.variance = some 10 ∧
    (Chisquared.new 5).map Chisquared.modes = some [3] ∧
    (Erlang.new 5 (1 / 2)).map Erlang.mean = some 10 ∧
    (Erlang.new 5 (1 / 2)).map Erlang.variance = some 20 ∧
    (Erlang.new 5 (1 / 2)).map Erlang.modes = some [8] := by
  rw [chisquared_new_unfold 5 (by decide), erlang_new_unfold 5 (1 / 2) (by decide)
    (by norm_num)]
  refine ⟨?_, ?_, ?_, ?_, ?_, ?_⟩ <;>
    norm_num [Chisquared.mean, Chisquared.variance, Chisquared.modes,
      Erlang.mean, Erlang.variance, Erlang.modes, Gamma.mean, Gamma.variance,
      Gamma.modes]

/-- C8: for every successfully constructed Chisquared or Erlang instance,
every post-construction operation is a total function (in this embedding
each operation is a total Lean function of the stored parameters, with no
error value in its codomain), and in particular density and distribution
return 0 for every argument outside the support rather than erroring. -/
theorem post_construction_totality (k : ℕ) (hk : 0 < k) (l : ℚ)
    (hl : 0 < l) (x : ℝ) (hx : x ≤ 0) :
    (Chisquared.new k).map (fun c => c.density x) = some 0 ∧
    (Chisquared.new k).map (fun c => c.distribution x) = some 0 ∧
    (Erlang.new k l).map (fun e => e.density x) = some 0 ∧
    (Erlang.new k l).map (fun e => e.distribution x) = some 0 := by
  have hx2 : ¬(0 : ℝ) < x := not_lt.mpr hx
  rw [chisquared_new_unfold k hk, erlang_new_unfold k l hk hl]
  refine ⟨?_, ?_, ?_, ?_⟩ <;>
    simp [Chisquared.density, Chisquared.distribution, Erlang.density,
      Erlang.distribution, Gamma.density, Gamma.distribution, hx2]

/-- C8 witness at k = 1, l = 1, x = 0. -/
theorem post_construction_totality_witness :
    0 < 1 ∧ (0 : ℚ) < 1 ∧ (0 : ℝ) ≤ 0 ∧
    ((Chisquared.new 1).map (fun c => c.density 0) = some 0 ∧
     (Chisquared.new 1).map (fun c => c.distribution 0) = some 0 ∧
     (Erlang.new 1 1).map (fun e => e.density 0) = some 0 ∧
     (Erlang.new 1 1).map (fun e => e.distribution 0) = some 0) :=
  ⟨Nat.one_pos, one_pos, le_refl 0,
   post_construction_totality 1 Nat.one_pos 1 one_pos 0 (le_refl 0)⟩

/-- C9: an Erlang construction with a not-a-number rate is refused: the
precondition check evaluates the IEEE comparison l > 0.0, which is false
for NaN, so the check fails and construction returns no instance, exactly
as for a non-positive rate. -/
theorem erlang_rejects_nan_rate (k : ℕ) :
    Erlang.checkF k Fl.nan = false ∧ Erlang.newF k Fl.nan = none := by
  constructor
  · simp [Erlang.checkF, Fl.gtZero]
  · simp [Erlang.newF, Erlang.checkF, Fl.gtZero]

/-- C10: for every positive integer k the rate positive infinity passes the
local precondition check of Erlang construction, yet the scale handed to
the Gamma constructor is 1 / infinity = 0, which violates the strict
positivity invariant of the stored parameters and would be rejected by the
Gamma constructor itself: enforcement is left entirely to Gamma. -/
theorem erlang_inf_rate_passes_check (k : ℕ) (hk : 0 < k) :
    Erlang.checkF k Fl.inf = true ∧
    Erlang.newF k Fl.inf = some ((k : ℚ), Fl.fin 0) ∧
    Fl.gtZero (Fl.fin 0) = false ∧
    Gamma.new (k : ℚ) 0 = none := by
  have hc : Erlang.checkF k Fl.inf = true := by
    simp [Erlang.checkF, Fl.gtZero, hk]
  refine ⟨hc, ?_, ?_, ?_⟩
  · simp [Erlang.newF, hc, Fl.oneDiv]
  · norm_num [Fl.gtZero]
  · simp [Gamma.new]

/-- C10 witness at k = 1. -/
theorem erlang_inf_rate_passes_check_witness :
    0 < 1 ∧
    (Erlang.checkF 1 Fl.inf = true ∧
     Erlang.newF 1 Fl.inf = some (((1 : ℕ) : ℚ), Fl.fin 0) ∧
     Fl.gtZero (Fl.fin 0) = false ∧
     Gamma.new ((1 : ℕ) : ℚ) 0 = none) :=
  ⟨Nat.one_pos, erlang_inf_rate_passes_check 1 Nat.one_pos⟩
